import Mathlib

/-!
Verification development for the KursarScript (KSPL) implementation:
a shallow embedding of the scanner/parser in `kursarscipt-compiler.py`
(class `KSPLCompiler`) and of the tree-walking evaluator in
`kursarscript-interpreter.py` (classes `KSPLInterpreter`, `KSPLClass`,
`KSPLObject`), together with theorems settling the specification's claims.

Python strings are modelled as `List Char`; Python dicts as association
lists whose update keeps insertion order (as CPython dicts do); the
regular expressions used by the source are modelled by hand-written
deterministic matchers (each is annotated with the regex it models);
runtime exceptions are modelled by `Except`.  The mutually recursive
evaluator takes a fuel argument (`KErr.outOfFuel` is a model artifact:
the Python evaluator would instead recurse without bound).
-/

namespace KSPL

abbrev Chars := List Char

/-- The character list of a string literal (Python text). -/
def chs (s : String) : Chars := s.data

/-- A single-quote character (written via `Char.ofNat`). -/
def squote : Char := Char.ofNat 39

/-- Python `\s` for the ASCII whitespace considered by `str.strip` and `re`. -/
def isPySpace (c : Char) : Bool :=
  c == ' ' || c == '\t' || c == '\n' || c == '\r' || c == '\x0b' || c == '\x0c'

/-- Python `\w` (ASCII): letters, digits, underscore. -/
def isWordChar (c : Char) : Bool := c.isAlphanum || c == '_'

/-- A character of the target of an assignment: `[\w\.]`. -/
def isWordDotChar (c : Char) : Bool := isWordChar c || c == '.'

/-- Python `str.startswith`. -/
def startsWithChars : Chars → Chars → Bool
  | [], _ => true
  | _ :: _, [] => false
  | p :: ps, c :: cs => p == c && startsWithChars ps cs

/-- Python `in` on strings (single-character needle). -/
def containsChar (cs : Chars) (c : Char) : Bool := cs.any (fun x => x == c)

/-- Python `str.endswith` (single-character needle). -/
def endsWithChar (cs : Chars) (c : Char) : Bool :=
  match cs.reverse with
  | [] => false
  | x :: _ => x == c

/-- Python `str.count` (single-character needle). -/
def countChar (cs : Chars) (c : Char) : Nat := (cs.filter (fun x => x == c)).length

/-- Python `str.strip`. -/
def trimL (cs : Chars) : Chars :=
  ((cs.dropWhile isPySpace).reverse.dropWhile isPySpace).reverse

/-- Python `str.split(sep)` for a one-character separator: `"".split` gives `[""]`. -/
def splitOnChar (sep : Char) : Chars → List Chars
  | [] => [[]]
  | c :: rest =>
    let r := splitOnChar sep rest
    if c == sep then [] :: r
    else
      match r with
      | h :: t => (c :: h) :: t
      | [] => [[c]]

/-- Index of the last occurrence of `c`, if any (for the greedy `(.*)` groups). -/
def lastIdxOf : Chars → Char → Option Nat
  | [], _ => none
  | x :: xs, c =>
    match lastIdxOf xs c with
    | some j => some (j + 1)
    | none => if x == c then some 0 else none

/-- Membership test on a list of strings (Python `in` on a list). -/
def listHas (l : List Chars) (x : Chars) : Bool := l.any (fun y => y == x)

/-- Python dict read: first (equivalently, only) binding of the key. -/
def assocGet {κ α : Type} [BEq κ] : List (κ × α) → κ → Option α
  | [], _ => none
  | (k, v) :: rest, key => if k == key then some v else assocGet rest key

/-- Python dict write: update in place if present, else append (insertion order). -/
def assocSet {κ α : Type} [BEq κ] : List (κ × α) → κ → α → List (κ × α)
  | [], key, v => [(key, v)]
  | (k, w) :: rest, key, v =>
    if k == key then (k, v) :: rest else (k, w) :: assocSet rest key v

/-! ### Models of the regular expressions used by the source

Each matcher implements Python `re.match` (anchored at the start, trailing
text allowed) for the regex quoted in its doc comment.  Greedy groups
followed by a literal make all these matches deterministic: a `\w+`/`[\w\.]+`
group is the maximal run (a shorter run would have to be followed by a
word character, which can never match the next literal), and `(.*)` before
a literal reaches the last occurrence of that literal. -/

/-- Strip the leading `-?` of the numeric regexes. -/
def stripNeg (cs : Chars) : Chars :=
  match cs with
  | c :: t => if c == '-' then t else c :: t
  | [] => []

/-- `^-?\d+$` (integer literal). -/
def isIntLit (cs : Chars) : Bool :=
  let ds := stripNeg cs
  !ds.isEmpty && ds.all Char.isDigit

def digitsVal (cs : Chars) : Nat :=
  cs.foldl (fun a c => a * 10 + (c.toNat - 48)) 0

def parseIntLit (cs : Chars) : Int :=
  match cs with
  | '-' :: t => -(digitsVal t : Int)
  | _ => (digitsVal cs : Int)

/-- `^-?\d+\.\d+$` (float literal); the value itself stays opaque. -/
def isFloatLit (cs : Chars) : Bool :=
  let ds := stripNeg cs
  let ip := ds.takeWhile Char.isDigit
  match ds.dropWhile Char.isDigit with
  | c :: fp => c == '.' && (!ip.isEmpty && !fp.isEmpty && fp.all Char.isDigit)
  | [] => false

/-- `expr.startswith('"') and expr.endswith('"')`, or the same with `'`. -/
def isStringLit (cs : Chars) : Bool :=
  match cs with
  | [] => false
  | c :: _ =>
    (c == '"' && endsWithChar cs '"') || (c == squote && endsWithChar cs squote)

/-- `re.match(r'class\s+(\w+)\s*\{', line)`: the class name. -/
def matchClassHeader (line : Chars) : Option Chars :=
  if startsWithChars (chs "class") line then
    let r1 := line.drop 5
    if (r1.takeWhile isPySpace).isEmpty then none else
    let r2 := r1.dropWhile isPySpace
    let name := r2.takeWhile isWordChar
    if name.isEmpty then none else
    match (r2.dropWhile isWordChar).dropWhile isPySpace with
    | '\x7b' :: _ => some name
    | _ => none
  else none

/-- `[p.strip() for p in params.split(',') if p.strip()]`. -/
def parseParams (inside : Chars) : List Chars :=
  ((splitOnChar ',' inside).map trimL).filter (fun p => !p.isEmpty)

/-- `re.match(r'fn\s+(\w+)\s*\(([^)]*)\)\s*\{', line)`: name and parameter list. -/
def matchFnHeader (line : Chars) : Option (Chars × List Chars) :=
  if startsWithChars (chs "fn") line then
    let r1 := line.drop 2
    if (r1.takeWhile isPySpace).isEmpty then none else
    let r2 := r1.dropWhile isPySpace
    let name := r2.takeWhile isWordChar
    if name.isEmpty then none else
    match (r2.dropWhile isWordChar).dropWhile isPySpace with
    | '(' :: r4 =>
      let inside := r4.takeWhile (fun c => c != ')')
      match r4.dropWhile (fun c => c != ')') with
      | ')' :: r5 =>
        match r5.dropWhile isPySpace with
        | '\x7b' :: _ => some (name, parseParams inside)
        | _ => none
      | _ => none
    | _ => none
  else none

/-- `re.match(r'KW\s+(\w+)\s*=\s*(.*)', line)` for `KW` = `field`/`let`. -/
def matchDecl (kw : Chars) (line : Chars) : Option (Chars × Chars) :=
  if startsWithChars kw line then
    let r1 := line.drop kw.length
    if (r1.takeWhile isPySpace).isEmpty then none else
    let r2 := r1.dropWhile isPySpace
    let name := r2.takeWhile isWordChar
    if name.isEmpty then none else
    match (r2.dropWhile isWordChar).dropWhile isPySpace with
    | '=' :: r3 => some (name, r3.dropWhile isPySpace)
    | _ => none
  else none

/-- `re.match(r'([\w\.]+)\s*=\s*(.*)', line)`: assignment target and expression. -/
def matchAssign (line : Chars) : Option (Chars × Chars) :=
  let tgt := line.takeWhile isWordDotChar
  if tgt.isEmpty then none else
  match (line.drop tgt.length).dropWhile isPySpace with
  | '=' :: r => some (tgt, r.dropWhile isPySpace)
  | _ => none

/-- `re.match(r'return\s+(.*)', line)`: the returned expression. -/
def matchReturn (line : Chars) : Option Chars :=
  if startsWithChars (chs "return") line then
    let r1 := line.drop 6
    if (r1.takeWhile isPySpace).isEmpty then none else some (r1.dropWhile isPySpace)
  else none

/-- `re.match(r'if\s+([^{]+)\s*\{', stmt)` (interpreter): condition up to the
first `{`; the greedy `\s+` backtracks just enough to leave the group
nonempty. -/
def matchIfInterp (s : Chars) : Option Chars :=
  if startsWithChars (chs "if") s then
    let rest := s.drop 2
    let w := (rest.takeWhile isPySpace).length
    match rest.findIdx? (fun c => c == '\x7b') with
    | none => none
    | some p =>
      if w ≥ 1 && p ≥ 2 then
        let k := min w (p - 1)
        some ((rest.drop k).take (p - k))
      else none
  else none

/-- `re.match(r'if\s+(.+)\s*\{', line)` (compiler): the greedy `(.+)` runs to
the last `{` of the line. -/
def matchIfCompiler (line : Chars) : Option Chars :=
  if startsWithChars (chs "if") line then
    let rest := line.drop 2
    let w := (rest.takeWhile isPySpace).length
    match lastIdxOf rest '\x7b' with
    | none => none
    | some q =>
      if w ≥ 1 && q ≥ 2 then
        let k := min w (q - 1)
        some ((rest.drop k).take (q - k))
      else none
  else none

/-- `re.match(r'([\w\.]+)\s*\((.*)\)', expr)`: callee path and argument text
(the greedy `(.*)` reaches the last `)`). -/
def matchCallExpr (expr : Chars) : Option (Chars × Chars) :=
  let fnName := expr.takeWhile isWordDotChar
  if fnName.isEmpty then none else
  match (expr.drop fnName.length).dropWhile isPySpace with
  | '(' :: rest =>
    match lastIdxOf rest ')' with
    | some j => some (fnName, rest.take j)
    | none => none
  | _ => none

namespace KSPLCompiler

/-- The token dictionaries produced by `KSPLCompiler.tokenize`.  The
`braceClose` kind (`'BRACE_CLOSE'`) is tested for by `KSPLCompiler.parse`
but never produced by `tokenize`. -/
inductive CTok where
  | classDef (name : Chars) (line : Nat)
  | fnDef (name : Chars) (params : List Chars) (line : Nat)
  | fieldDef (name : Chars) (expr : Chars) (line : Nat)
  | letDef (name : Chars) (expr : Chars) (line : Nat)
  | assignment (target : Chars) (expr : Chars) (line : Nat)
  | returnTok (expr : Chars) (line : Nat)
  | ifStmt (cond : Chars) (line : Nat)
  | elseStmt (line : Nat)
  | braceClose (line : Nat)
  | expression (v : Chars) (line : Nat)
  | statement (v : Chars) (line : Nat)
deriving DecidableEq, Repr

/-- Loop body of `KSPLCompiler.tokenize`: `line_num` is only incremented on
blank/comment lines and in the final (generic expression/statement) branch;
all the keyword branches `continue` without incrementing it. -/
def tokenizeGo : List Chars → Nat → List CTok
  | [], _ => []
  | l0 :: ls, n =>
    let line := trimL l0
    if line.isEmpty || startsWithChars (chs "//") line then tokenizeGo ls (n + 1)
    else
      match matchClassHeader line with
      | some c => .classDef c n :: tokenizeGo ls n
      | none =>
      match matchFnHeader line with
      | some (f, ps) => .fnDef f ps n :: tokenizeGo ls n
      | none =>
      match matchDecl (chs "field") line with
      | some (f, e) => .fieldDef f e n :: tokenizeGo ls n
      | none =>
      match matchDecl (chs "let") line with
      | some (x, e) => .letDef x e n :: tokenizeGo ls n
      | none =>
      match matchAssign line with
      | some (t, e) => .assignment t e n :: tokenizeGo ls n
      | none =>
      match matchReturn line with
      | some e => .returnTok e n :: tokenizeGo ls n
      | none =>
      match matchIfCompiler line with
      | some c => .ifStmt c n :: tokenizeGo ls n
      | none =>
        if line == chs "\x7d else \x7b" then .elseStmt n :: tokenizeGo ls n
        else if containsChar line '(' && endsWithChar line ')' then
          .expression line n :: tokenizeGo ls (n + 1)
        else .statement line n :: tokenizeGo ls (n + 1)

/-- `KSPLCompiler.tokenize(source)`. -/
def tokenize (src : Chars) : List CTok := tokenizeGo (splitOnChar '\n' src) 1

/-- A statement node of the compiler AST: either a raw token or the `IF`
dictionary built by `parse` (whose branches hold raw tokens). -/
inductive CNode where
  | tok (t : CTok)
  | ifNode (cond : Chars) (thenB : List CTok) (elseB : List CTok) (line : Nat)
deriving DecidableEq, Repr

structure CMethod where
  name : Chars
  params : List Chars
  body : List CNode
  line : Nat
deriving DecidableEq, Repr

structure CField where
  expr : Chars
  line : Nat
deriving DecidableEq, Repr

structure CClass where
  name : Chars
  methods : List (Chars × CMethod)
  fields : List (Chars × CField)
  line : Nat
deriving DecidableEq, Repr

structure CAst where
  classes : List (Chars × CClass)
  global_code : List CNode
  imports : List Chars
deriving DecidableEq, Repr

/-- `KSPLCompileError` raised by `parse` ("Return outside of method"). -/
inductive CErr where
  | returnOutsideMethod
  | outOfFuel
deriving DecidableEq, Repr

/-- The mutable parser state: the AST under construction plus the
`current_class` / `current_method` references (names; the Python dicts are
mutated through them, modelled by in-place association-list updates). -/
structure PState where
  classes : List (Chars × CClass)
  global_code : List CNode
  curClass : Option Chars
  curMethod : Option Chars
deriving DecidableEq, Repr

def updClass (cs : List (Chars × CClass)) (n : Chars) (f : CClass → CClass) :
    List (Chars × CClass) :=
  cs.map (fun kc => if kc.1 == n then (kc.1, f kc.2) else kc)

def updMethod (ms : List (Chars × CMethod)) (n : Chars) (f : CMethod → CMethod) :
    List (Chars × CMethod) :=
  ms.map (fun km => if km.1 == n then (km.1, f km.2) else km)

/-- `current_method['body'].append(node)` when a method is current, else
`ast['global_code'].append(node)`.  (Whenever `current_method` is set,
`current_class` is too: `FN_DEF` only sets it inside a class.) -/
def appendStmt (s : PState) (nd : CNode) : PState :=
  match s.curClass, s.curMethod with
  | some cn, some mn =>
    let updM := fun (m : CMethod) => { m with body := m.body ++ [nd] }
    let updC := fun (c : CClass) => { c with methods := updMethod c.methods mn updM }
    { s with classes := updClass s.classes cn updC }
  | _, _ => { s with global_code := s.global_code ++ [nd] }

def isElseTok : CTok → Bool
  | .elseStmt _ => true
  | _ => false

def isBraceTok : CTok → Bool
  | .braceClose _ => true
  | _ => false

/-- Loop of `KSPLCompiler.parse`; the fuel is a bound on loop iterations
(each consumes at least one token, so `tokens.length + 1` always suffices). -/
def parseGo : Nat → List CTok → PState → Except CErr PState
  | 0, _, _ => .error .outOfFuel
  | _ + 1, [], s => .ok s
  | n + 1, t :: ts, s =>
    match t with
    | .classDef name line =>
      parseGo n ts { s with
        classes := assocSet s.classes name ⟨name, [], [], line⟩,
        curClass := some name, curMethod := none }
    | .fnDef name params line =>
      match s.curClass with
      | some cn =>
        parseGo n ts { s with
          classes := updClass s.classes cn
            (fun c => { c with methods := assocSet c.methods name ⟨name, params, [], line⟩ }),
          curMethod := some name }
      | none => parseGo n ts s
    | .fieldDef name expr line =>
      match s.curClass with
      | some cn =>
        parseGo n ts { s with
          classes := updClass s.classes cn
            (fun c => { c with fields := assocSet c.fields name ⟨expr, line⟩ }) }
      | none => parseGo n ts s
    | .letDef _ _ _ => parseGo n ts (appendStmt s (.tok t))
    | .assignment _ _ _ => parseGo n ts (appendStmt s (.tok t))
    | .expression _ _ => parseGo n ts (appendStmt s (.tok t))
    | .statement _ _ => parseGo n ts (appendStmt s (.tok t))
    | .returnTok _ _ =>
      match s.curMethod with
      | some _ => parseGo n ts (appendStmt s (.tok t))
      | none => .error .returnOutsideMethod
    | .ifStmt cond line =>
      let thenB := ts.takeWhile (fun x => !(isElseTok x || isBraceTok x))
      let r1 := ts.dropWhile (fun x => !(isElseTok x || isBraceTok x))
      match r1 with
      | [] => parseGo n [] (appendStmt s (.ifNode cond thenB [] line))
      | t1 :: r1' =>
        if isElseTok t1 then
          let elseB := r1'.takeWhile (fun x => !isBraceTok x)
          let r2 := r1'.dropWhile (fun x => !isBraceTok x)
          let rest := match r2 with | [] => [] | _ :: rr => rr
          parseGo n rest (appendStmt s (.ifNode cond thenB elseB line))
        else
          parseGo n r1' (appendStmt s (.ifNode cond thenB [] line))
    | .elseStmt _ => parseGo n ts s
    | .braceClose _ => parseGo n ts s

/-- `KSPLCompiler.parse(tokens)`: never inspects brace balance (no token of
kind `braceClose` is ever produced by `tokenize`), so the only failure it
can raise is "Return outside of method". -/
def parse (tokens : List CTok) : Except CErr CAst :=
  (parseGo (tokens.length + 1) tokens ⟨[], [], none, none⟩).map
    (fun s => ⟨s.classes, s.global_code, []⟩)

end KSPLCompiler

namespace KSPLInterpreter

/-- The runtime values handled by `KSPLInterpreter`.  `VObj` is a reference
into the heap of `KSPLObject` instances; `VBuiltin` is a host-provided
callable registered by `setup_builtins`; `VCtor` is the per-class
constructor closure installed by `run`; `VUserFn` the closure installed for
a top-level `fn`; `VPyDict` a Python dict (only producible by the host
`eval` fallback, but tested for by `execute_block`); `VHostOpaque` stands
for host-object attributes whose content the model does not interpret. -/
inductive Value where
  | VNull
  | VBool (b : Bool)
  | VInt (n : Int)
  | VFloat (lit : Chars)
  | VStr (s : Chars)
  | VObj (ref : Nat)
  | VBuiltin (name : Chars)
  | VCtor (className : Chars)
  | VUserFn (params : List Chars) (body : List Chars)
  | VPyDict (entries : List (Chars × Value))
  | VHostOpaque (tag : Chars)

abbrev Env := List (Chars × Value)

/-- A method entry of `KSPLClass.methods`: `{'params': ..., 'body': ...}`. -/
structure Method where
  params : List Chars
  body : List Chars

/-- `KSPLClass(name, methods, fields)`; the fields hold the already
evaluated default values (`load_class` evaluates each `field` line once). -/
structure KClass where
  name : Chars
  methods : List (Chars × Method)
  fields : List (Chars × Value)

/-- A `KSPLObject`: its `_klass` reference and its instance `__dict__`. -/
structure ObjData where
  klass : KClass
  fields : List (Chars × Value)

/-- The interpreter's mutable state: `self.globals`, `self.classes`, and a
heap giving identity to the mutable `KSPLObject` instances. -/
structure St where
  globals : Env
  classes : List (Chars × KClass)
  heap : List (Nat × ObjData)
  nextRef : Nat

/-- The `KSPLRuntimeError`s (by message) plus the two Python-level failures
the source can hit (`AttributeError` on the `None` interpreter inside
`KSPLObject.__init__`, `KeyError`/`TypeError` on dict and call misuse).
`outOfFuel` is a model artifact of the fuel-based recursion. -/
inductive KErr where
  | invalidClassDefinition
  | invalidFunctionDefinition
  | propertyNotFound (p : Chars)
  | couldNotEvaluate (e : Chars)
  | invalidFunctionCall (e : Chars)
  | methodNotFound (m : Chars)
  | functionNotFound (f : Chars)
  | variableNotFound (v : Chars)
  | methodNotFoundInClass (m klass : Chars)
  | attributeErrorNoneType
  | keyError
  | typeErrorNotCallable
  | hostOpaqueOperation
  | outOfFuel

/-- The host side of the interpreter, kept abstract: `evalFallback` models
the `ast.parse`/`eval` fallback at the end of `eval_expression` (given the
expression, `self.globals` and the local environment; `none` means the
Python evaluation raised, which the source turns into
"Could not evaluate expression"), and `applyBuiltin` models calling a
host-provided builtin. -/
structure Host where
  evalFallback : Chars → Env → Env → Option Value
  applyBuiltin : Chars → List Value → Except KErr Value

/-- Python truthiness of the modelled values (used for
`result.get('__return__')` in `execute_block`; host floats are opaque and
modelled as truthy — no theorem depends on them). -/
def pyTruthy : Value → Bool
  | .VNull => false
  | .VBool b => b
  | .VInt n => n != 0
  | .VFloat _ => true
  | .VStr s => !s.isEmpty
  | .VObj _ => true
  | .VBuiltin _ => true
  | .VCtor _ => true
  | .VUserFn _ _ => true
  | .VPyDict es => !es.isEmpty
  | .VHostOpaque _ => true

/-- Python `callable(...)` on the modelled values (host-opaque attribute
values may or may not be callable in Python; the model treats them as not
callable and no theorem depends on them). -/
def callableV : Value → Bool
  | .VBuiltin _ => true
  | .VCtor _ => true
  | .VUserFn _ _ => true
  | _ => false

/-- The attribute names visible through `hasattr` on every `KSPLObject`
besides its instance fields: the `_klass` instance attribute, the class's
methods, and the standard `object` attributes. -/
def kspObjectPyAttrs : List Chars :=
  [chs "_klass", chs "call_method", chs "__init__", chs "__repr__",
   chs "__class__", chs "__dict__", chs "__doc__", chs "__module__",
   chs "__weakref__", chs "__sizeof__", chs "__str__", chs "__hash__",
   chs "__eq__", chs "__ne__", chs "__lt__", chs "__le__", chs "__gt__",
   chs "__ge__", chs "__getattribute__", chs "__setattr__",
   chs "__delattr__", chs "__dir__", chs "__format__", chs "__reduce__",
   chs "__reduce_ex__", chs "__new__", chs "__init_subclass__",
   chs "__subclasshook__"]

/-- `hasattr(obj, prop)`: for a `KSPLObject`, its `__dict__` (the fields)
and the class/object attributes above; attributes of host-opaque values
are not modelled (no theorem touches them). -/
def hasattrV (st : St) (v : Value) (p : Chars) : Bool :=
  match v with
  | .VObj r =>
    match assocGet st.heap r with
    | some o => (assocGet o.fields p).isSome || listHas kspObjectPyAttrs p
    | none => false
  | _ => false

/-- `getattr(obj, prop)` for the cases where `hasattrV` holds: a field's
value, else an opaque host attribute (bound method, dunder, `_klass`). -/
def getattrV (st : St) (v : Value) (p : Chars) : Value :=
  match v with
  | .VObj r =>
    match assocGet st.heap r with
    | some o =>
      match assocGet o.fields p with
      | some fv => fv
      | none => .VHostOpaque p
    | none => .VHostOpaque p
  | _ => .VHostOpaque p

/-- The property-chain walk shared by the tail of `eval_expression` and the
target navigation in `execute_statement`: at each step take the attribute
if `hasattr` holds, else raise `Property '...' not found`.  (The source's
`isinstance(obj, dict)` arm is unreachable here: no modelled value is a
Python dict reachable as an attribute base in the theorems below.) -/
def walkProps (st : St) : Value → List Chars → Except KErr Value
  | cur, [] => .ok cur
  | cur, p :: rest =>
    if hasattrV st cur p then walkProps st (getattrV st cur p) rest
    else .error (.propertyNotFound p)

/-- `setattr(target, p, v)` as used by property assignment: mutates a
`KSPLObject`'s field dict; `setattr` on host values is outside the model. -/
def setattrV (st : St) (target : Value) (p : Chars) (v : Value) : Except KErr St :=
  match target with
  | .VObj r =>
    match assocGet st.heap r with
    | some o =>
      .ok { st with heap := assocSet st.heap r ⟨o.klass, assocSet o.fields p v⟩ }
    | none => .error .hostOpaqueOperation
  | _ => .error .hostOpaqueOperation

/-- Write one field of a heap object (used for the legacy `self.name = args[0]`
convention in `KSPLObject.__init__`). -/
def setFieldSt (st : St) (r : Nat) (p : Chars) (v : Value) : St :=
  match assocGet st.heap r with
  | some o => { st with heap := assocSet st.heap r ⟨o.klass, assocSet o.fields p v⟩ }
  | none => st

/-- Parameter binding of `KSPLObject.call_method`: every declared parameter
is bound, to the positional argument when present and to `None`
otherwise. -/
def bindLoop : Env → List Chars → List Value → Env
  | env, [], _ => env
  | env, p :: ps, [] => bindLoop (assocSet env p .VNull) ps []
  | env, p :: ps, a :: as_ => bindLoop (assocSet env p a) ps as_

/-- `dict(zip(params, args))` used for top-level functions: `zip` truncates
to the shorter list, so missing parameters stay unbound. -/
def zipBindGo : Env → List Chars → List Value → Env
  | env, p :: ps, a :: as_ => zipBindGo (assocSet env p a) ps as_
  | env, _, _ => env

def zipBind (ps : List Chars) (vs : List Value) : Env := zipBindGo [] ps vs

/-- `KSPLInterpreter.split_arguments` inner loop (`current` is kept
reversed).  Splits only at commas outside string literals and at
parenthesis depth zero; each emitted piece is stripped. -/
def splitArgsGo : Chars → Chars → Int → Bool → Option Char → List Chars → List Chars
  | [], cur, _, _, _, acc =>
    acc ++ (if cur.isEmpty then [] else [trimL cur.reverse])
  | c :: rest, cur, depth, inStr, sc, acc =>
    if c == '"' || c == squote then
      if !inStr then splitArgsGo rest (c :: cur) depth true (some c) acc
      else if sc == some c then splitArgsGo rest (c :: cur) depth false none acc
      else splitArgsGo rest (c :: cur) depth inStr sc acc
    else if !inStr && c == '(' then splitArgsGo rest (c :: cur) (depth + 1) inStr sc acc
    else if !inStr && c == ')' then splitArgsGo rest (c :: cur) (depth - 1) inStr sc acc
    else if !inStr && depth == 0 && c == ',' then
      splitArgsGo rest [] depth inStr sc (acc ++ [trimL cur.reverse])
    else splitArgsGo rest (c :: cur) depth inStr sc acc

/-- `KSPLInterpreter.split_arguments(args_text)`. -/
def split_arguments (argsText : Chars) : List Chars :=
  splitArgsGo argsText [] 0 false none []

/-- The body-collecting loop shared (verbatim in the source) by
`parse_class`, `parse_function` and the method loop of `load_class`:
update the brace depth with the line's `{`/`}` counts, keep the line while
the depth stays positive, stop once it reaches zero.  Returns the body and
the remaining lines. -/
def collectBody (depth : Int) : List Chars → List Chars × List Chars
  | [] => ([], [])
  | l :: ls =>
    let d := depth + (countChar l '\x7b' : Int) - (countChar l '\x7d' : Int)
    if d > 0 then
      let (b, r) := collectBody d ls
      (l :: b, r)
    else ([], ls)

/-- `KSPLInterpreter.setup_builtins`: the global namespace seeded at
startup (host callables are opaque `VBuiltin`s; `true`/`false`/`null` are
ordinary value bindings). -/
def setup_builtins : Env :=
  [(chs "create_virtucard", .VBuiltin (chs "create_virtucard")),
   (chs "transfer", .VBuiltin (chs "transfer")),
   (chs "VirtualTerminal", .VBuiltin (chs "VirtualTerminal")),
   (chs "Avatar", .VBuiltin (chs "Avatar")),
   (chs "VirtualItem", .VBuiltin (chs "VirtualItem")),
   (chs "print", .VBuiltin (chs "print")),
   (chs "len", .VBuiltin (chs "len")),
   (chs "str", .VBuiltin (chs "str")),
   (chs "int", .VBuiltin (chs "int")),
   (chs "float", .VBuiltin (chs "float")),
   (chs "bool", .VBuiltin (chs "bool")),
   (chs "true", .VBool true),
   (chs "false", .VBool false),
   (chs "null", .VNull),
   (chs "get_avatar", .VBuiltin (chs "get_avatar")),
   (chs "create_portal", .VBuiltin (chs "create_portal")),
   (chs "get_environment", .VBuiltin (chs "get_environment"))]

/-- A fresh `KSPLInterpreter()`: empty class table, globals seeded by
`setup_builtins`, empty heap. -/
def initState : St := ⟨setup_builtins, [], [], 0⟩

mutual

/-- `KSPLInterpreter.eval_expression(expr, local_env)`.  Branch order as in
the source: string literal, `true`/`false`/`null`, int, float, local then
global variable, function call, dotted property access, host `eval`
fallback (any failure of which becomes "Could not evaluate expression"). -/
def eval_expression (host : Host) : Nat → St → Chars → Env → Except KErr (Value × St)
  | 0, _, _, _ => .error .outOfFuel
  | n + 1, st, expr0, env =>
    let expr := trimL expr0
    if isStringLit expr then .ok (.VStr ((expr.drop 1).dropLast), st)
    else if expr == chs "true" then .ok (.VBool true, st)
    else if expr == chs "false" then .ok (.VBool false, st)
    else if expr == chs "null" then .ok (.VNull, st)
    else if isIntLit expr then .ok (.VInt (parseIntLit expr), st)
    else if isFloatLit expr then .ok (.VFloat expr, st)
    else
      match assocGet env expr with
      | some v => .ok (v, st)
      | none =>
      match assocGet st.globals expr with
      | some v => .ok (v, st)
      | none =>
        if containsChar expr '(' && endsWithChar expr ')' then
          eval_function_call host n st expr env
        else if containsChar expr '.' then
          match splitOnChar '.' expr with
          | base :: props => do
            let (obj, st1) ← eval_expression host n st base env
            let v ← walkProps st1 obj props
            .ok (v, st1)
          | [] => .error .keyError
        else
          match host.evalFallback expr st.globals env with
          | some v => .ok (v, st)
          | none => .error (.couldNotEvaluate expr)

/-- `KSPLInterpreter.eval_function_call(expr, local_env)`: parse the call,
evaluate the arguments left to right, then dispatch — dotted callee to a
host attribute or a `KSPLObject` method, bare callee to a callable global,
then to a declared class (constructing a `KSPLObject`), else
`Function '...' not found`. -/
def eval_function_call (host : Host) : Nat → St → Chars → Env → Except KErr (Value × St)
  | 0, _, _, _ => .error .outOfFuel
  | n + 1, st, expr, env =>
    match matchCallExpr expr with
    | none => .error (.invalidFunctionCall expr)
    | some (fnName, argsText0) =>
      let argsText := trimL argsText0
      do
        let (args, st1) ←
          if argsText.isEmpty then pure ([], st)
          else evalArgsList host n st (split_arguments argsText) env
        if containsChar fnName '.' then
          match splitOnChar '.' fnName with
          | base :: mName :: _ => do
            let (obj, st2) ← eval_expression host n st1 base env
            if hasattrV st2 obj mName then
              applyCallable host n st2 (getattrV st2 obj mName) args
            else
              match obj with
              | .VObj r =>
                match assocGet st2.heap r with
                | some o =>
                  if (assocGet o.klass.methods mName).isSome then
                    call_method host n st2 true r mName args
                  else .error (.methodNotFound mName)
                | none => .error (.methodNotFound mName)
              | _ => .error (.methodNotFound mName)
          | _ => .error .keyError
        else
          match assocGet st1.globals fnName with
          | some v =>
            if callableV v then applyCallable host n st1 v args
            else
              match assocGet st1.classes fnName with
              | some k => constructObject host n st1 k args
              | none => .error (.functionNotFound fnName)
          | none =>
            match assocGet st1.classes fnName with
            | some k => constructObject host n st1 k args
            | none => .error (.functionNotFound fnName)

/-- The argument loop of `eval_function_call`: evaluate each split argument
in order, threading state. -/
def evalArgsList (host : Host) : Nat → St → List Chars → Env → Except KErr (List Value × St)
  | 0, _, _, _ => .error .outOfFuel
  | _ + 1, st, [], _ => .ok ([], st)
  | n + 1, st, a :: rest, env => do
    let (v, st1) ← eval_expression host n st a env
    let (vs, st2) ← evalArgsList host n st1 rest env
    .ok (v :: vs, st2)

/-- Calling a resolved callable value: a host builtin, the constructor
closure installed by `run` (which looks the class up again at call time —
`KeyError` if gone), or a top-level function closure (whose scope is
`dict(zip(params, args))`).  Calling anything else is a Python
`TypeError`. -/
def applyCallable (host : Host) : Nat → St → Value → List Value → Except KErr (Value × St)
  | 0, _, _, _ => .error .outOfFuel
  | n + 1, st, v, args =>
    match v with
    | .VBuiltin name => (host.applyBuiltin name args).map (fun r => (r, st))
    | .VCtor cname =>
      match assocGet st.classes cname with
      | some k => constructObject host n st k args
      | none => .error .keyError
    | .VUserFn params body => execute_block host n st body (zipBind params args)
    | _ => .error .typeErrorNotCallable

/-- `KSPLInterpreter.execute_statement(stmt, local_env)`.  Exactly the
source's branch order and fallthroughs: blank/comment, `let` (only when its
regex matches), assignment (plain or dotted target), `return` (which only
evaluates and returns the value — it produces no `__return__` marker),
`if` (which only evaluates and returns the condition), else expression. -/
def execute_statement (host : Host) : Nat → St → Chars → Env → Except KErr (Value × Env × St)
  | 0, _, _, _ => .error .outOfFuel
  | n + 1, st, stmt0, env =>
    let stmt := trimL stmt0
    if stmt.isEmpty || startsWithChars (chs "//") stmt then .ok (.VNull, env, st)
    else
      match (if startsWithChars (chs "let ") stmt then matchDecl (chs "let") stmt else none) with
      | some (name, expr) => do
        let (v, st1) ← eval_expression host n st expr env
        .ok (v, assocSet env name v, st1)
      | none =>
      match matchAssign stmt with
      | some (target, expr) => do
        let (v, st1) ← eval_expression host n st expr env
        if containsChar target '.' then
          match splitOnChar '.' target with
          | objName :: p :: ps => do
            let obj ←
              match assocGet env objName with
              | some o => pure o
              | none =>
                match assocGet st1.globals objName with
                | some o => pure o
                | none => Except.error (.variableNotFound objName)
            let cur ← walkProps st1 obj ((p :: ps).dropLast)
            let st2 ← setattrV st1 cur ((p :: ps).getLastD p) v
            Except.ok (v, env, st2)
          | _ => .error .keyError
        else
          if (assocGet env target).isSome then .ok (v, assocSet env target v, st1)
          else .ok (v, env, { st1 with globals := assocSet st1.globals target v })
      | none =>
      if startsWithChars (chs "return ") stmt then do
        let (v, st1) ← eval_expression host n st (trimL (stmt.drop 7)) env
        .ok (v, env, st1)
      else
      match (if startsWithChars (chs "if ") stmt then matchIfInterp stmt else none) with
      | some cond => do
        let (v, st1) ← eval_expression host n st cond env
        .ok (v, env, st1)
      | none => do
        let (v, st1) ← eval_expression host n st stmt env
        .ok (v, env, st1)

/-- The loop of `execute_block`: run each statement, keeping the last
result; only a result that is a Python dict with a truthy `'__return__'`
entry short-circuits the block (no statement of `execute_statement` ever
builds one — only the host `eval` fallback could). -/
def executeBlockGo (host : Host) : Nat → St → List Chars → Env → Value → Except KErr (Value × St)
  | 0, _, _, _, _ => .error .outOfFuel
  | _ + 1, st, [], _, result => .ok (result, st)
  | n + 1, st, stmt :: rest, env, _ => do
    let (r, env1, st1) ← execute_statement host n st stmt env
    match r with
    | .VPyDict es =>
      if pyTruthy ((assocGet es (chs "__return__")).getD .VNull) then
        match assocGet es (chs "value") with
        | some v => .ok (v, st1)
        | none => .error .keyError
      else executeBlockGo host n st1 rest env1 r
    | _ => executeBlockGo host n st1 rest env1 r

/-- `KSPLInterpreter.execute_block(statements, local_env)` (callers always
pass the environment, so the `local_env is None` default is elided). -/
def execute_block (host : Host) : Nat → St → List Chars → Env → Except KErr (Value × St)
  | 0, _, _, _ => .error .outOfFuel
  | n + 1, st, stmts, env => executeBlockGo host n st stmts env .VNull

/-- `KSPLObject.call_method(method_name, interpreter, args)`: look the
method up in `_klass.methods` (else `Method '...' not found in class
'...'`), bind `self` and the parameters (missing ones to `None`), then run
the body through `interpreter.execute_block` — which, when the interpreter
argument is `None` (as in `KSPLObject.__init__`), raises Python's
`AttributeError` instead. -/
def call_method (host : Host) :
    Nat → St → Bool → Nat → Chars → List Value → Except KErr (Value × St)
  | 0, _, _, _, _, _ => .error .outOfFuel
  | n + 1, st, hasInterp, ref, mName, args =>
    match assocGet st.heap ref with
    | none => .error .keyError
    | some o =>
      match assocGet o.klass.methods mName with
      | none => .error (.methodNotFoundInClass mName o.klass.name)
      | some m =>
        let env := bindLoop [(chs "self", .VObj ref)] m.params args
        if hasInterp then execute_block host n st m.body env
        else .error .attributeErrorNoneType

/-- `KSPLObject.__init__(klass, args)`: copy the class's evaluated field
defaults into the new instance, then call `init` when the class has one —
passing `None` as the interpreter — else apply the legacy
`self.name = args[0]` convention. -/
def constructObject (host : Host) : Nat → St → KClass → List Value → Except KErr (Value × St)
  | 0, _, _, _ => .error .outOfFuel
  | n + 1, st, k, args =>
    let r := st.nextRef
    let st1 : St := { st with heap := assocSet st.heap r ⟨k, k.fields⟩, nextRef := r + 1 }
    if (assocGet k.methods (chs "init")).isSome then do
      let (_, st2) ← call_method host n st1 false r (chs "init") args
      .ok (.VObj r, st2)
    else
      match args with
      | a :: _ => .ok (.VObj r, setFieldSt st1 r (chs "name") a)
      | [] => .ok (.VObj r, st1)

/-- The line loop of `KSPLInterpreter.load_class`: collect `fn` methods
(with their brace-delimited bodies) and `field` declarations (whose
default expressions are evaluated immediately in an empty local
environment); other lines are skipped. -/
def loadClassGo (host : Host) :
    Nat → St → List Chars → List (Chars × Method) → List (Chars × Value) →
    Except KErr (List (Chars × Method) × List (Chars × Value) × St)
  | 0, _, _, _, _ => .error .outOfFuel
  | _ + 1, st, [], ms, fs => .ok (ms, fs, st)
  | n + 1, st, l :: rest, ms, fs =>
    let line := trimL l
    if startsWithChars (chs "fn ") line then
      match matchFnHeader line with
      | some (mname, params) =>
        let (mbody, rest') := collectBody 1 rest
        loadClassGo host n st rest' (assocSet ms mname ⟨params, mbody⟩) fs
      | none => loadClassGo host n st rest ms fs
    else if startsWithChars (chs "field ") line then
      match matchDecl (chs "field") line with
      | some (fname, fexpr) => do
        let (v, st1) ← eval_expression host n st fexpr []
        loadClassGo host n st1 rest ms (assocSet fs fname v)
      | none => loadClassGo host n st rest ms fs
    else loadClassGo host n st rest ms fs

/-- `KSPLInterpreter.load_class(class_name, body)`. -/
def load_class (host : Host) : Nat → St → Chars → List Chars → Except KErr (KClass × St)
  | 0, _, _, _ => .error .outOfFuel
  | n + 1, st, name, body => do
    let (ms, fs, st1) ← loadClassGo host n st body [] []
    .ok (⟨name, ms, fs⟩, st1)

end

/-- The parsed statements produced by `KSPLInterpreter.parse`: `('class',
name, body)`, `('function', name, params, body)` or `('stmt', line)`. -/
inductive PStmt where
  | pclass (name : Chars) (body : List Chars)
  | pfunction (name : Chars) (params : List Chars) (body : List Chars)
  | pstmt (line : Chars)
deriving DecidableEq, Repr

/-- The line loop of `KSPLInterpreter.parse` (each iteration consumes at
least one line, so `lines.length + 1` fuel always suffices).  A `class `/
`fn ` header whose regex fails raises `Invalid class/function definition`;
`parse_class`/`parse_function` stop silently at end of input even when the
brace depth never returned to zero. -/
def parseGo : Nat → List Chars → Except KErr (List PStmt)
  | 0, _ => .error .outOfFuel
  | _ + 1, [] => .ok []
  | n + 1, l :: ls =>
    if l.isEmpty || startsWithChars (chs "//") l then parseGo n ls
    else if startsWithChars (chs "class ") l then
      match matchClassHeader l with
      | none => .error .invalidClassDefinition
      | some cname =>
        let (body, rest) := collectBody 1 ls
        do
          let s ← parseGo n rest
          .ok (.pclass cname body :: s)
    else if startsWithChars (chs "fn ") l then
      match matchFnHeader l with
      | none => .error .invalidFunctionDefinition
      | some (fname, params) =>
        let (body, rest) := collectBody 1 ls
        do
          let s ← parseGo n rest
          .ok (.pfunction fname params body :: s)
    else do
      let s ← parseGo n ls
      .ok (.pstmt l :: s)

/-- `KSPLInterpreter.parse(source)`: split into lines, strip each, then run
the statement loop. -/
def parse (source : Chars) : Except KErr (List PStmt) :=
  let lines := (splitOnChar '\n' source).map trimL
  parseGo (lines.length + 1) lines

/-- A host on which the `eval` fallback always raises and builtins always
fail: exact for every input reached by the concrete runs below (none of
which is a valid Python expression, and none of which invokes a host
builtin). -/
def strictHost : Host :=
  ⟨fun _ _ _ => none, fun _ _ => .error .hostOpaqueOperation⟩

end KSPLInterpreter

open KSPLInterpreter

/-! ### Concrete fixtures used by the claim theorems -/

/-- A loaded class with a method `f` whose body holds two `return`
statements (the lines of `fn f() { return 1 return 2 }`). -/
def returnTwiceClass : KClass :=
  ⟨chs "T", [(chs "f", ⟨[], [chs "return 1", chs "return 2"]⟩)], []⟩

/-- An interpreter state holding one instance of `returnTwiceClass`. -/
def returnTwiceState : St := ⟨setup_builtins, [], [(0, ⟨returnTwiceClass, []⟩)], 1⟩

/-- The body lines of a method containing the spec's conditional
`if (true) { return 1 } else { return 2 }` written on separate lines with
the condition `true` (a parenthesised condition `(true)` would fail even
earlier, inside `eval_expression`). -/
def ifElseBody : List Chars :=
  [chs "if true \x7b", chs "return 1", chs "\x7d else \x7b",
   chs "return 2", chs "\x7d"]

/-- Body lines of the spec's `Counter` class, as `parse_class` would
collect them. -/
def counterBody : List Chars :=
  [chs "field n = 0",
   chs "fn init(start) \x7b",
   chs "self.n = start",
   chs "\x7d",
   chs "fn inc() \x7b",
   chs "self.n = self.n + 1",
   chs "return self.n",
   chs "\x7d"]

/-- A loaded class with one two-parameter method `get(a, b)` returning its
second parameter. -/
def twoParamClass : KClass :=
  ⟨chs "T", [(chs "get", ⟨[chs "a", chs "b"], [chs "return b"]⟩)], []⟩

/-- An interpreter state holding one instance of `twoParamClass`. -/
def twoParamState : St := ⟨setup_builtins, [], [(0, ⟨twoParamClass, []⟩)], 1⟩

/-- An interpreter state holding one instance of a class with no methods
and no fields. -/
def bareObjState : St := ⟨setup_builtins, [], [(0, ⟨⟨chs "T", [], []⟩, []⟩)], 1⟩

/-! ### Reference definitions for the argument-splitting claim

The claim about `split_arguments` is universal: the text is divided only
at commas occurring at parenthesis depth zero and outside string
literals.  The following definitions state that property in the spec's
own terms, independently of the source's accumulator loop: a scan state
(depth, string status), the division of the text exactly at the
"top-level" commas, and the stripping/flush rule applied to the pieces.
The theorems below prove `split_arguments` equal to this reference on
every input, and that the reference's segments reassemble (with the cut
commas) to the original text, so nothing is divided anywhere else. -/

/-- The scan state of the split: current parenthesis depth and, when
inside a string literal, its opening quote character. -/
structure ScanSt where
  depth : Int
  inStr : Bool
  sc : Option Char
deriving DecidableEq, Repr

/-- One character's effect on the scan state: a quote opens a string, the
matching quote closes it, parentheses outside strings adjust the depth,
and every other character (commas included) leaves the state unchanged. -/
def scanStep (s : ScanSt) (c : Char) : ScanSt :=
  if c == '"' || c == squote then
    if !s.inStr then { s with inStr := true, sc := some c }
    else if s.sc == some c then { s with inStr := false, sc := none }
    else s
  else if !s.inStr && c == '(' then { s with depth := s.depth + 1 }
  else if !s.inStr && c == ')' then { s with depth := s.depth - 1 }
  else s

/-- The reference division: cut the text exactly at the commas scanned at
parenthesis depth zero outside string literals, keeping every other
character of every segment. -/
def topLevelSplit : ScanSt → Chars → List Chars
  | _, [] => [[]]
  | s, c :: rest =>
    if c == ',' && !s.inStr && s.depth == 0 then
      [] :: topLevelSplit s rest
    else
      match topLevelSplit (scanStep s c) rest with
      | h :: t => (c :: h) :: t
      | [] => [[c]]

/-- The source's post-processing of the divided segments: the pending
text `cur` belongs to the first segment, every piece is stripped, and a
final empty segment is dropped (the loop's closing `if current:`). -/
def flushSegs : Chars → List Chars → List Chars
  | _, [] => []
  | cur, [last] => if (cur ++ last).isEmpty then [] else [trimL (cur ++ last)]
  | cur, seg :: rest => trimL (cur ++ seg) :: flushSegs [] rest

/-- Reassembly of the reference segments: put the cut commas back. -/
def joinCommas : List Chars → Chars
  | [] => []
  | [s] => s
  | s :: rest => s ++ ',' :: joinCommas rest

/-! ### Helper lemmas on the dictionary and string models -/

theorem assocGet_assocSet_self {κ α : Type} [BEq κ] [LawfulBEq κ]
    (l : List (κ × α)) (k : κ) (v : α) :
    assocGet (assocSet l k v) k = some v := by
  induction l with
  | nil => simp [assocGet, assocSet]
  | cons h t ih =>
    obtain ⟨k', w⟩ := h
    cases hk : k' == k with
    | true => simp [assocSet, hk, assocGet]
    | false => simp [assocSet, hk, assocGet, ih]

theorem assocGet_assocSet_ne {κ α : Type} [BEq κ] [LawfulBEq κ]
    (l : List (κ × α)) (k k' : κ) (v : α) (h : ¬ k = k') :
    assocGet (assocSet l k v) k' = assocGet l k' := by
  induction l with
  | nil => simp [assocGet, assocSet, h]
  | cons hd t ih =>
    obtain ⟨k0, w⟩ := hd
    cases hk : k0 == k with
    | true => simp [assocSet, hk, assocGet, (by simpa using hk : k0 = k), h]
    | false => simp [assocSet, hk, assocGet, ih]

theorem assocGet_bindLoop_not_mem (env : Env) (ps : List Chars) (args : List Value)
    (p : Chars) (hp : p ∉ ps) :
    assocGet (bindLoop env ps args) p = assocGet env p := by
  induction ps generalizing env args with
  | nil => cases args <;> rfl
  | cons q ps' ih =>
    have hq : ¬ q = p := fun h => hp (h ▸ List.mem_cons_self q ps')
    have hp' : p ∉ ps' := fun h => hp (List.mem_cons_of_mem _ h)
    cases args with
    | nil => rw [bindLoop, ih _ _ hp', assocGet_assocSet_ne _ _ _ _ hq]
    | cons a as_ => rw [bindLoop, ih _ _ hp', assocGet_assocSet_ne _ _ _ _ hq]

theorem assocGet_bindLoop_missing (env : Env) (ps : List Chars) (args : List Value)
    (p : Chars) (hnd : ps.Nodup) (hp : p ∈ ps.drop args.length) :
    assocGet (bindLoop env ps args) p = some .VNull := by
  induction ps generalizing env args with
  | nil => simp at hp
  | cons q ps' ih =>
    obtain ⟨hq, hnd'⟩ := List.nodup_cons.mp hnd
    cases args with
    | nil =>
      rw [List.length_nil, List.drop_zero] at hp
      rcases List.mem_cons.mp hp with rfl | hmem
      · rw [bindLoop, assocGet_bindLoop_not_mem _ _ _ _ hq]
        exact assocGet_assocSet_self env p .VNull
      · exact ih (assocSet env q .VNull) [] hnd' (by simpa using hmem)
    | cons a as_ =>
      have : p ∈ ps'.drop as_.length := by simpa using hp
      exact ih (assocSet env q a) as_ hnd' this

theorem beq_eq_false_of_pred {p : Char → Bool} {x y : Char}
    (hx : p x = true) (hy : p y = false) : (x == y) = false := by
  cases hxy : x == y with
  | false => rfl
  | true =>
    rw [eq_of_beq hxy] at hx
    rw [hx] at hy
    exact absurd hy (by simp)

theorem not_space_of_wordChar {c : Char} (h : isWordChar c = true) :
    isPySpace c = false := by
  cases hs : isPySpace c with
  | false => rfl
  | true =>
    unfold isPySpace at hs
    simp only [Bool.or_eq_true, beq_iff_eq] at hs
    rcases hs with ((((h1 | h1) | h1) | h1) | h1) | h1 <;>
      (subst h1; exact absurd h (by decide))

theorem dropWhile_eq_self_of_all {p : Char → Bool} {cs : Chars}
    (h : ∀ x ∈ cs, p x = false) : cs.dropWhile p = cs := by
  cases cs with
  | nil => rfl
  | cons c t => rw [List.dropWhile_cons, h c (List.mem_cons_self c t)]; simp

theorem trimL_eq_self {cs : Chars} (h : ∀ x ∈ cs, isPySpace x = false) :
    trimL cs = cs := by
  unfold trimL
  rw [dropWhile_eq_self_of_all h,
    dropWhile_eq_self_of_all (fun x hx => h x (List.mem_reverse.mp hx)),
    List.reverse_reverse]

theorem takeWhile_append_run {p : Char → Bool} {l1 : Chars} {c : Char} {l2 : Chars}
    (h1 : ∀ x ∈ l1, p x = true) (h2 : p c = false) :
    (l1 ++ c :: l2).takeWhile p = l1 := by
  induction l1 with
  | nil => simp [List.takeWhile_cons, h2]
  | cons a t ih =>
    rw [List.cons_append, List.takeWhile_cons, h1 a (List.mem_cons_self a t),
      ih (fun x hx => h1 x (List.mem_cons_of_mem _ hx))]
    simp

theorem contains_eq_false {cs : Chars} {c : Char}
    (h : ∀ x ∈ cs, (x == c) = false) : containsChar cs c = false := by
  unfold containsChar
  rw [List.any_eq_false]
  intro x hx
  rw [h x hx]
  simp

theorem contains_eq_true_of_mem {cs : Chars} {c : Char} (h : c ∈ cs) :
    containsChar cs c = true := by
  unfold containsChar
  rw [List.any_eq_true]
  exact ⟨c, h, by simp⟩

theorem startsWith_subset {pat cs : Chars} (h : startsWithChars pat cs = true) :
    ∀ x ∈ pat, x ∈ cs := by
  induction pat generalizing cs with
  | nil => simp
  | cons p ps ih =>
    cases cs with
    | nil => simp [startsWithChars] at h
    | cons c t =>
      rw [startsWithChars, Bool.and_eq_true] at h
      intro x hx
      rcases List.mem_cons.mp hx with rfl | hx'
      · rw [eq_of_beq h.1]; exact List.mem_cons_self c t
      · exact List.mem_cons_of_mem _ (ih h.2 x hx')

theorem startsWith_eq_false_of_not_mem {pat cs : Chars} {c : Char}
    (hc : c ∈ pat) (hcs : c ∉ cs) : startsWithChars pat cs = false := by
  cases h : startsWithChars pat cs with
  | false => rfl
  | true => exact absurd (startsWith_subset h c hc) hcs

theorem beq_lists_eq_false_of_mem_not_mem {l1 l2 : Chars} {c : Char}
    (h1 : c ∈ l1) (h2 : c ∉ l2) : (l1 == l2) = false := by
  cases h : l1 == l2 with
  | false => rfl
  | true => exact absurd (eq_of_beq h ▸ h1) h2

theorem splitOnChar_no_sep {sep : Char} {cs : Chars}
    (h : ∀ x ∈ cs, (x == sep) = false) : splitOnChar sep cs = [cs] := by
  induction cs with
  | nil => rfl
  | cons c t ih =>
    rw [splitOnChar, ih (fun x hx => h x (List.mem_cons_of_mem _ hx)),
      h c (List.mem_cons_self c t)]
    simp

theorem all_eq_false_of_mem {p : Char → Bool} {cs : Chars} {c : Char}
    (hc : c ∈ cs) (hp : p c = false) : cs.all p = false := by
  cases h : cs.all p with
  | false => rfl
  | true =>
    have := List.all_eq_true.mp h c hc
    rw [hp] at this
    exact absurd this (by simp)

theorem stripNeg_of_head_ne {c : Char} {t : Chars} (h : (c == '-') = false) :
    stripNeg (c :: t) = c :: t := by
  rw [stripNeg, h]
  simp

theorem isFloatLit_false_of_no_dot {cs : Chars} (h : '.' ∉ stripNeg cs) :
    isFloatLit cs = false := by
  have e : isFloatLit cs =
      (match (stripNeg cs).dropWhile Char.isDigit with
        | c :: fp =>
          c == '.' &&
            (!((stripNeg cs).takeWhile Char.isDigit).isEmpty && !fp.isEmpty &&
              fp.all Char.isDigit)
        | [] => false) := rfl
  rw [e]
  cases hd : (stripNeg cs).dropWhile Char.isDigit with
  | nil => rfl
  | cons c fp =>
    have hcm : c ∈ stripNeg cs := by
      have : c ∈ (stripNeg cs).dropWhile Char.isDigit := hd ▸ List.mem_cons_self c fp
      exact (List.dropWhile_sublist _).subset this
    have hne : (c == '.') = false := by
      cases hcc : c == '.' with
      | false => rfl
      | true => exact absurd (eq_of_beq hcc ▸ hcm) h
    simp [hne]

theorem topLevelSplit_ne_nil (s : ScanSt) (t : Chars) : topLevelSplit s t ≠ [] := by
  cases t with
  | nil => simp [topLevelSplit]
  | cons c rest =>
    unfold topLevelSplit
    split
    · exact List.cons_ne_nil _ _
    · cases topLevelSplit (scanStep s c) rest with
      | nil => exact List.cons_ne_nil _ _
      | cons h t' => exact List.cons_ne_nil _ _

theorem topLevelSplit_cons_sep (s : ScanSt) (c : Char) (rest : Chars)
    (hg : (c == ',' && !s.inStr && s.depth == 0) = true) :
    topLevelSplit s (c :: rest) = [] :: topLevelSplit s rest := by
  simp only [topLevelSplit, hg]
  rfl

theorem topLevelSplit_cons_of_guard_false (s : ScanSt) (c : Char) (rest : Chars)
    (h1 : Chars) (t1 : List Chars)
    (hg : (c == ',' && !s.inStr && s.depth == 0) = false)
    (ht : topLevelSplit (scanStep s c) rest = h1 :: t1) :
    topLevelSplit s (c :: rest) = (c :: h1) :: t1 := by
  simp only [topLevelSplit, hg, ht]
  rfl

theorem flushSegs_cons_first (a : Chars) (c : Char) (h : Chars) (t : List Chars) :
    flushSegs a ((c :: h) :: t) = flushSegs (a ++ [c]) (h :: t) := by
  have e : a ++ c :: h = (a ++ [c]) ++ h := by
    rw [List.append_assoc]
    rfl
  cases t with
  | nil =>
    show (if (a ++ (c :: h)).isEmpty then [] else [trimL (a ++ (c :: h))]) =
      (if ((a ++ [c]) ++ h).isEmpty then [] else [trimL ((a ++ [c]) ++ h)])
    rw [e]
  | cons s rest =>
    show trimL (a ++ (c :: h)) :: flushSegs [] (s :: rest) =
      trimL ((a ++ [c]) ++ h) :: flushSegs [] (s :: rest)
    rw [e]

theorem quote_not_comma {c : Char} (h : (c == '"' || c == squote) = true) :
    (c == ',') = false := by
  cases hq : (c == '"') with
  | true =>
    rw [eq_of_beq hq]
    decide
  | false =>
    rw [hq, Bool.false_or] at h
    rw [eq_of_beq h]
    decide

theorem not_true_of_eq_true {b : Bool} (h : (!b) = true) : b = false := by
  cases b with
  | false => rfl
  | true => exact absurd h (by decide)

theorem eq_true_of_not_neg {b : Bool} (h : ¬((!b) = true)) : b = true := by
  cases b with
  | true => rfl
  | false => exact absurd (by decide) h

theorem splitArgsGo_eq_flush (t : Chars) :
    ∀ (cur : Chars) (depth : Int) (inStr : Bool) (sc : Option Char)
      (acc : List Chars),
    splitArgsGo t cur depth inStr sc acc =
      acc ++ flushSegs cur.reverse (topLevelSplit ⟨depth, inStr, sc⟩ t) := by
  induction t with
  | nil =>
    intro cur depth inStr sc acc
    cases cur with
    | nil => rfl
    | cons a as_ =>
      have hne : ((a :: as_).reverse).isEmpty = false := by
        cases h : (a :: as_).reverse with
        | nil => exact absurd (List.reverse_eq_nil_iff.mp h) (List.cons_ne_nil a as_)
        | cons b bs => rfl
      have e2 : flushSegs ((a :: as_).reverse) (topLevelSplit ⟨depth, inStr, sc⟩ []) =
          (if ((a :: as_).reverse ++ ([] : Chars)).isEmpty then ([] : List Chars)
            else [trimL ((a :: as_).reverse ++ [])]) := rfl
      rw [e2, List.append_nil, hne]
      rfl
  | cons c rest ih =>
    intro cur depth inStr sc acc
    have step : ∀ (depth' : Int) (inStr' : Bool) (sc' : Option Char),
        scanStep ⟨depth, inStr, sc⟩ c = ⟨depth', inStr', sc'⟩ →
        (c == ',' && !inStr && depth == 0) = false →
        splitArgsGo rest (c :: cur) depth' inStr' sc' acc =
          acc ++ flushSegs cur.reverse (topLevelSplit ⟨depth, inStr, sc⟩ (c :: rest)) := by
      intro depth' inStr' sc' hscan hg
      obtain ⟨h1, t1, ht⟩ :=
        List.exists_cons_of_ne_nil (topLevelSplit_ne_nil ⟨depth', inStr', sc'⟩ rest)
      have ht2 : topLevelSplit (scanStep ⟨depth, inStr, sc⟩ c) rest = h1 :: t1 := by
        rw [hscan]
        exact ht
      rw [topLevelSplit_cons_of_guard_false _ _ _ _ _ hg ht2,
        ih (c :: cur) depth' inStr' sc' acc, ht, List.reverse_cons,
        ← flushSegs_cons_first]
    simp only [splitArgsGo]
    split_ifs with h1 h2 h3 h4 h5 h6
    · -- a quote opening a string
      have hcomma : (c == ',') = false := quote_not_comma h1
      have hin : inStr = false := not_true_of_eq_true h2
      subst hin
      refine step depth true (some c) ?_ (by rw [hcomma]; rfl)
      simp [scanStep, h1]
    · -- the matching quote closing the string
      have hcomma : (c == ',') = false := quote_not_comma h1
      have hin : inStr = true := eq_true_of_not_neg h2
      have hsc := eq_of_beq h3
      subst hin
      subst hsc
      refine step depth false none ?_ (by rw [hcomma]; rfl)
      simp [scanStep, h1]
    · -- a quote inside a string opened by the other quote
      have hcomma : (c == ',') = false := quote_not_comma h1
      have hin : inStr = true := eq_true_of_not_neg h2
      have h3' : (sc == some c) = false := by
        cases hs : sc == some c with
        | false => rfl
        | true => exact absurd hs h3
      subst hin
      refine step depth true sc ?_ (by rw [hcomma]; rfl)
      simp [scanStep, h1, h3']
    · -- an opening parenthesis outside strings
      rw [Bool.and_eq_true] at h4
      obtain ⟨h4a, h4b⟩ := h4
      have hin : inStr = false := not_true_of_eq_true h4a
      have hc := eq_of_beq h4b
      subst hc
      subst hin
      exact step (depth + 1) false sc rfl rfl
    · -- a closing parenthesis outside strings
      rw [Bool.and_eq_true] at h5
      obtain ⟨h5a, h5b⟩ := h5
      have hin : inStr = false := not_true_of_eq_true h5a
      have hc := eq_of_beq h5b
      subst hc
      subst hin
      exact step (depth - 1) false sc rfl rfl
    · -- a top-level comma: the split point
      rw [Bool.and_eq_true] at h6
      obtain ⟨h6a, h6c⟩ := h6
      rw [Bool.and_eq_true] at h6a
      obtain ⟨h6in, h6d⟩ := h6a
      have hin : inStr = false := not_true_of_eq_true h6in
      have hc := eq_of_beq h6c
      subst hc
      subst hin
      have hg : ((',' : Char) == ',' &&
          !(⟨depth, false, sc⟩ : ScanSt).inStr &&
          (⟨depth, false, sc⟩ : ScanSt).depth == 0) = true := by
        simp [h6d]
      rw [topLevelSplit_cons_sep _ _ _ hg]
      obtain ⟨h1s, t1, ht⟩ :=
        List.exists_cons_of_ne_nil (topLevelSplit_ne_nil ⟨depth, false, sc⟩ rest)
      rw [ht, ih [] depth false sc (acc ++ [trimL cur.reverse]), ht]
      simp [flushSegs, List.append_assoc]
    · -- any other character: state and segment both just extend
      have h6' : (!inStr && depth == 0 && c == ',') = false := by
        cases hb : (!inStr && depth == 0 && c == ',') with
        | false => rfl
        | true => exact absurd hb h6
      have h1' : (c == '"' || c == squote) = false := by
        cases hb : (c == '"' || c == squote) with
        | false => rfl
        | true => exact absurd hb h1
      have h4' : (!inStr && c == '(') = false := by
        cases hb : (!inStr && c == '(') with
        | false => rfl
        | true => exact absurd hb h4
      have h5' : (!inStr && c == ')') = false := by
        cases hb : (!inStr && c == ')') with
        | false => rfl
        | true => exact absurd hb h5
      have hg : (c == ',' && !inStr && depth == 0) = false := by
        rw [show (c == ',' && !inStr && depth == 0) =
            (!inStr && depth == 0 && c == ',') from by
          cases (c == ',') <;> cases (!inStr) <;> cases (depth == 0) <;> rfl]
        exact h6'
      refine step depth inStr sc ?_ hg
      simp [scanStep, h1', h4', h5']

theorem split_arguments_eq_reference (t : Chars) :
    split_arguments t = flushSegs [] (topLevelSplit ⟨0, false, none⟩ t) := by
  have h := splitArgsGo_eq_flush t [] 0 false none []
  simpa [split_arguments] using h

theorem joinCommas_topLevelSplit (s : ScanSt) (t : Chars) :
    joinCommas (topLevelSplit s t) = t := by
  induction t generalizing s with
  | nil => rfl
  | cons c rest ih =>
    by_cases hg : (c == ',' && !s.inStr && s.depth == 0) = true
    · rw [topLevelSplit_cons_sep _ _ _ hg]
      obtain ⟨h1, t1, ht⟩ :=
        List.exists_cons_of_ne_nil (topLevelSplit_ne_nil s rest)
      have hg2 := hg
      rw [Bool.and_eq_true] at hg2
      obtain ⟨hg3, _⟩ := hg2
      rw [Bool.and_eq_true] at hg3
      obtain ⟨hcq, _⟩ := hg3
      have hc : c = ',' := eq_of_beq hcq
      have hjoin := ih s
      rw [ht] at hjoin ⊢
      subst hc
      cases t1 with
      | nil =>
        simp only [joinCommas] at hjoin
        simp [joinCommas, hjoin]
      | cons s2 t2 =>
        simp only [joinCommas] at hjoin
        simp [joinCommas, ← hjoin]
    · have hg' : (c == ',' && !s.inStr && s.depth == 0) = false := by
        cases hb : (c == ',' && !s.inStr && s.depth == 0) with
        | false => rfl
        | true => exact absurd hb hg
      obtain ⟨h1, t1, ht⟩ :=
        List.exists_cons_of_ne_nil (topLevelSplit_ne_nil (scanStep s c) rest)
      rw [topLevelSplit_cons_of_guard_false _ _ _ _ _ hg' ht]
      have hjoin := ih (scanStep s c)
      rw [ht] at hjoin
      cases t1 with
      | nil =>
        simp only [joinCommas] at hjoin
        simp [joinCommas, hjoin]
      | cons s2 t2 =>
        simp only [joinCommas] at hjoin
        simp [joinCommas, List.cons_append, ← hjoin]

theorem beq_eq_false_of_pred_rev {p : Char → Bool} {x y : Char}
    (hx : p x = false) (hy : p y = true) : (x == y) = false := by
  cases hxy : x == y with
  | false => rfl
  | true =>
    rw [← eq_of_beq hxy] at hy
    rw [hy] at hx
    exact absurd hx (by simp)

/-- Reduction of `eval_expression` to its function-call branch, for an
expression that is no literal, is unbound, contains `(` and ends in `)`.
The recursive call keeps an abstract fuel, so the equation does not unfold
further. -/
theorem eval_expression_to_call (host : Host) (n : Nat) (st : St) (env : Env)
    (E : Chars)
    (htr : trimL E = E) (hsl : isStringLit E = false)
    (ht : (E == chs "true") = false) (hf : (E == chs "false") = false)
    (hn : (E == chs "null") = false) (hi : isIntLit E = false)
    (hfl : isFloatLit E = false) (he : assocGet env E = none)
    (hg : assocGet st.globals E = none)
    (hpar : containsChar E '(' = true) (hend : endsWithChar E ')' = true) :
    eval_expression host (n + 1) st E env = eval_function_call host n st E env := by
  simp only [eval_expression, htr, hsl, ht, hf, hn, hi, hfl, he, hg, hpar, hend]
  rfl

/-- Reduction of `eval_expression` to its dotted property branch: the base
expression is evaluated and the property chain walked; an unresolvable
step's failure propagates out of the whole expression. -/
theorem eval_expression_property_error (host : Host) (n : Nat) (st : St)
    (env : Env) (E base : Chars) (props : List Chars) (obj : Value) (st1 : St)
    (err : KErr)
    (htr : trimL E = E) (hsl : isStringLit E = false)
    (ht : (E == chs "true") = false) (hf : (E == chs "false") = false)
    (hn : (E == chs "null") = false) (hi : isIntLit E = false)
    (hfl : isFloatLit E = false) (he : assocGet env E = none)
    (hg : assocGet st.globals E = none)
    (hpar : containsChar E '(' = false) (hdot : containsChar E '.' = true)
    (hsp : splitOnChar '.' E = base :: props)
    (hbe : eval_expression host n st base env = .ok (obj, st1))
    (hw : walkProps st1 obj props = .error err) :
    eval_expression host (n + 1) st E env = .error err := by
  have g : eval_expression host (n + 1) st E env =
      (do
        let (obj, st1) ← eval_expression host n st base env
        let v ← walkProps st1 obj props
        (.ok (v, st1) : Except KErr (Value × St))) := by
    simp only [eval_expression, htr, hsl, ht, hf, hn, hi, hfl, he, hg, hpar,
      hdot, hsp]
    rfl
  rw [g, hbe]
  show (do
      let v ← walkProps st1 obj props
      (.ok (v, st1) : Except KErr (Value × St))) = .error err
  rw [hw]
  rfl

/-- Dispatch of `eval_function_call` for a call that parses to a bare
(undotted) callee with empty argument text: the callee is resolved as a
callable global, else as a declared class, else the call fails with
`Function '...' not found`. -/
theorem eval_function_call_bare_no_args (host : Host) (n : Nat) (st : St)
    (env : Env) (E name : Chars)
    (hc : matchCallExpr E = some (name, []))
    (hdot : containsChar name '.' = false) :
    eval_function_call host (n + 1) st E env =
      (match assocGet st.globals name with
      | some v =>
        if callableV v then applyCallable host n st v []
        else
          match assocGet st.classes name with
          | some k => constructObject host n st k []
          | none => .error (.functionNotFound name)
      | none =>
        match assocGet st.classes name with
        | some k => constructObject host n st k []
        | none => .error (.functionNotFound name)) := by
  simp only [eval_function_call, hc, hdot]
  rfl

/-! ### Claim theorems -/

/-- Claim C1 (code-bug evidence): calling the method `f` whose body is
`return 1` followed by `return 2` yields `2`, not `1`.  The `return`
branch of `execute_statement` returns the evaluated value as a plain
value — never the `{'__return__': True, 'value': ...}` dict that
`execute_block` tests for — so execution continues past the first
`return` and the call's result is the last statement's value, not the
first `return`'s. -/
theorem c1_return_does_not_short_circuit :
    call_method strictHost 50 returnTwiceState true 0 (chs "f") [] =
      .ok (.VInt 2, returnTwiceState) := rfl

/-- Claim C2 (code-bug evidence): executing the body of
`fn f() { if true { return 1 } else { return 2 } }` does not yield `1`:
the `if` line merely evaluates (and returns) the condition, the
then-branch line runs as an ordinary statement, and the `} else {` line
then fails with `Could not evaluate expression` — the branches are never
delimited or selected. -/
theorem c2_if_else_branches_not_selected :
    execute_block strictHost 50 initState ifElseBody [] =
      .error (.couldNotEvaluate (chs "\x7d else \x7b")) := rfl

/-- Claim C3 (code-bug evidence): loading the spec's `Counter` class does
find its `init` method, but constructing `Counter(5)` raises Python's
`AttributeError`: `KSPLObject.__init__` invokes
`self.call_method('init', None, args)` with `None` in place of the
interpreter, so running the `init` body dereferences
`None.execute_block`. -/
theorem c3_constructing_with_init_raises :
    (load_class strictHost 100 initState (chs "Counter") counterBody).map
        (fun p => (assocGet p.1.methods (chs "init")).isSome) = .ok true ∧
    (do
      let (k, st) ← load_class strictHost 100 initState (chs "Counter") counterBody
      constructObject strictHost 100 st k [.VInt 5]) =
      .error .attributeErrorNoneType := ⟨rfl, rfl⟩

/-- Claim C4 (code-bug evidence): a source whose class block is opened and
never closed is accepted by both parsers without any `SyntaxError`: the
interpreter's `parse_class` stops silently at end of input with the brace
depth still positive, and the compiler's `tokenize` never emits the
`BRACE_CLOSE` token its `parse` would need to notice imbalance. -/
theorem c4_unterminated_block_accepted :
    KSPLInterpreter.parse (chs "class A \x7b") = .ok [.pclass (chs "A") []] ∧
    KSPLCompiler.parse (KSPLCompiler.tokenize (chs "class A \x7b")) =
      .ok ⟨[(chs "A", ⟨chs "A", [], [], 1⟩)], [], []⟩ := ⟨rfl, rfl⟩

/-- Claim C5 (counterexample): executing the plain assignment `x = 5` with
no scope binding `x` (empty local environment, empty globals) creates the
binding in the global namespace and leaves the innermost (call-local)
scope empty — not, as claimed, in the innermost scope. -/
theorem c5_counterexample_unbound_assignment_goes_global :
    execute_statement strictHost 50 ⟨[], [], [], 0⟩ (chs "x = 5") [] =
      .ok (.VInt 5, ([] : Env), ⟨[(chs "x", .VInt 5)], [], [], 0⟩) := rfl

/-- Claim C5 (amended): a plain assignment consults only the innermost
(call-local) scope — if the target is bound there it is mutated there;
otherwise the binding is created or updated in the global namespace,
regardless of whether the name was previously bound anywhere. -/
theorem c5_assignment_local_else_global (host : Host) (n : Nat) (st : St) (env : Env) :
    execute_statement host (n + 2) st (chs "x = 5") env =
      (if (assocGet env (chs "x")).isSome then
        .ok (.VInt 5, assocSet env (chs "x") (.VInt 5), st)
      else
        .ok (.VInt 5, env,
          { st with globals := assocSet st.globals (chs "x") (.VInt 5) })) := rfl

/-- Claim C5 witness: the amended statement evaluated at a locally bound
`x` (mutated in place in the local scope, globals untouched). -/
theorem c5_assignment_local_else_global_witness :
    execute_statement strictHost 2 ⟨[], [], [], 0⟩ (chs "x = 5")
        [(chs "x", .VInt 0)] =
      .ok (.VInt 5, [(chs "x", .VInt 5)], ⟨[], [], [], 0⟩) :=
  (c5_assignment_local_else_global strictHost 0 ⟨[], [], [], 0⟩
    [(chs "x", .VInt 0)]).trans (by rfl)

/-- Claim C6 (counterexample): starting from the freshly seeded globals,
the single KSPL statement `print = 5` rebinds the builtin name `print`
(seeded as a host callable) to the integer `5` in the global namespace —
the builtin registry is not read-only from the language. -/
theorem c6_counterexample_builtin_overwritten :
    (match execute_statement strictHost 50 initState (chs "print = 5") [] with
      | .ok (_, _, st) => assocGet st.globals (chs "print")
      | .error _ => none) = some (.VInt 5) ∧
    assocGet initState.globals (chs "print") = some (.VBuiltin (chs "print")) :=
  ⟨rfl, rfl⟩

/-- Claim C6 (amended): the builtin registry is writable from the
language — a plain assignment whose target is a builtin name, executed
while the name is not locally bound, replaces that builtin's binding in
the global namespace. -/
theorem c6_builtin_rebindable_by_assignment (host : Host) (n : Nat) (st : St)
    (env : Env) (h : assocGet env (chs "print") = none) :
    execute_statement host (n + 2) st (chs "print = 5") env =
      .ok (.VInt 5, env,
        { st with globals := assocSet st.globals (chs "print") (.VInt 5) }) ∧
    assocGet (assocSet st.globals (chs "print") (.VInt 5)) (chs "print") =
      some (.VInt 5) := by
  constructor
  · have e : execute_statement host (n + 2) st (chs "print = 5") env =
        (if (assocGet env (chs "print")).isSome then
          .ok (.VInt 5, assocSet env (chs "print") (.VInt 5), st)
        else
          .ok (.VInt 5, env,
            { st with globals := assocSet st.globals (chs "print") (.VInt 5) })) := rfl
    rw [e, h]
    rfl
  · exact assocGet_assocSet_self st.globals (chs "print") (.VInt 5)

/-- Claim C6 witness: the amended statement applied to the seeded initial
state with an empty local environment. -/
theorem c6_builtin_rebindable_by_assignment_witness :
    execute_statement strictHost 2 initState (chs "print = 5") [] =
      .ok (.VInt 5, ([] : Env),
        { initState with
            globals := assocSet initState.globals (chs "print") (.VInt 5) }) ∧
    assocGet (assocSet initState.globals (chs "print") (.VInt 5)) (chs "print") =
      some (.VInt 5) :=
  c6_builtin_rebindable_by_assignment strictHost 0 initState [] rfl

/-- Claim C7: for every argument text, `split_arguments` divides it only
at the commas scanned at parenthesis depth zero outside string literals —
its result is the reference division `topLevelSplit` (which by definition
cuts exactly at such commas) post-processed by the stripping/flush rule,
and the reference's segments reassemble with the cut commas to the
original text, so no other position is ever divided; in particular the
call-expression regex extracts the argument text of `f(g(1,2), "a,b", 3)`
and it splits into exactly the three top-level arguments `g(1,2)`,
`"a,b"` and `3` (the comma at depth one and the comma inside the string
literal do not split). -/
theorem c7_split_arguments_top_level_only :
    (∀ t : Chars,
      split_arguments t = flushSegs [] (topLevelSplit ⟨0, false, none⟩ t)) ∧
    (∀ (s : ScanSt) (t : Chars), joinCommas (topLevelSplit s t) = t) ∧
    matchCallExpr (chs "f(g(1,2), \"a,b\", 3)") =
      some (chs "f", chs "g(1,2), \"a,b\", 3") ∧
    split_arguments (chs "g(1,2), \"a,b\", 3") =
      [chs "g(1,2)", chs "\"a,b\"", chs "3"] :=
  ⟨split_arguments_eq_reference, joinCommas_topLevelSplit, rfl, rfl⟩

/-- Claim C9 (code-bug evidence): scanning `class A {` followed on the
next source line by `fn f() {` produces two tokens that both record line
`1`: the keyword branches of `tokenize` `continue` without ever
incrementing `line_num` (only blank/comment lines and generic statement
lines increment it), so recorded line numbers diverge from true 1-based
line numbers. -/
theorem c9_line_numbers_wrong_after_keyword_lines :
    KSPLCompiler.tokenize (chs "class A \x7b\nfn f() \x7b") =
      [.classDef (chs "A") 1, .fnDef (chs "f") [] 1] := rfl

/-- Claim C8: a call `name()` whose bare callee name resolves to neither a
bound variable (the full call text is unbound locally and globally), nor a
callable global, nor a declared class fails with `Function '...' not
found` — both when evaluated as an expression and when executed as a
statement, so the failure propagates to the caller un-swallowed; and a
dotted access `obj.prop` whose base is a `KSPLObject` instance lacking the
field `prop` (with `prop` none of the Python-visible object attributes)
fails with `Property '...' not found`. -/
theorem c8_unresolved_call_and_property_fail (host : Host) (n : Nat) (st : St)
    (env : Env) (name prop : Chars) (r : Nat) (o : ObjData)
    (hname : name ≠ [])
    (hword : ∀ x ∈ name, isWordChar x = true)
    (henvC : assocGet env (name ++ chs "()") = none)
    (hglobC : assocGet st.globals (name ++ chs "()") = none)
    (hglobN : ∀ v, assocGet st.globals name = some v → callableV v = false)
    (hclass : assocGet st.classes name = none)
    (hpword : ∀ x ∈ prop, isWordChar x = true)
    (henvP : assocGet env (chs "obj" ++ '.' :: prop) = none)
    (hglobP : assocGet st.globals (chs "obj" ++ '.' :: prop) = none)
    (hbase : assocGet env (chs "obj") = some (.VObj r))
    (hheap : assocGet st.heap r = some o)
    (hfield : assocGet o.fields prop = none)
    (hpy : listHas kspObjectPyAttrs prop = false) :
    eval_expression host (n + 2) st (name ++ chs "()") env =
      .error (.functionNotFound name) ∧
    execute_statement host (n + 3) st (name ++ chs "()") env =
      .error (.functionNotFound name) ∧
    eval_expression host (n + 2) st (chs "obj" ++ '.' :: prop) env =
      .error (.propertyNotFound prop) := by
  obtain ⟨c0, nt, rfl⟩ := List.exists_cons_of_ne_nil hname
  have pl : chs "()" = ['(', ')'] := rfl
  have hheadW : isWordChar c0 = true := hword c0 (List.mem_cons_self _ _)
  have hwd : ∀ x ∈ c0 :: nt, isWordDotChar x = true := fun x hx => by
    unfold isWordDotChar
    rw [hword x hx]
    rfl
  have hmemA : ∀ x ∈ (c0 :: nt) ++ chs "()", isPySpace x = false := by
    intro x hx
    rw [pl] at hx
    rcases List.mem_append.mp hx with hx1 | hx2
    · exact not_space_of_wordChar (hword x hx1)
    · simp at hx2
      rcases hx2 with rfl | rfl <;> decide
  have htrim : trimL ((c0 :: nt) ++ chs "()") = (c0 :: nt) ++ chs "()" :=
    trimL_eq_self hmemA
  have hparenMem : '(' ∈ (c0 :: nt) ++ chs "()" := by
    rw [pl]
    exact List.mem_append_right _ (by decide)
  have hstr : isStringLit ((c0 :: nt) ++ chs "()") = false := by
    have h1 : (c0 == '"') = false := beq_eq_false_of_pred hheadW (by decide)
    have h2 : (c0 == squote) = false := beq_eq_false_of_pred hheadW (by decide)
    rw [List.cons_append]
    simp only [isStringLit, h1, h2, Bool.false_and, Bool.false_or]
  have hTrue : (((c0 :: nt) ++ chs "()") == chs "true") = false :=
    beq_lists_eq_false_of_mem_not_mem hparenMem (by decide)
  have hFalse : (((c0 :: nt) ++ chs "()") == chs "false") = false :=
    beq_lists_eq_false_of_mem_not_mem hparenMem (by decide)
  have hNull : (((c0 :: nt) ++ chs "()") == chs "null") = false :=
    beq_lists_eq_false_of_mem_not_mem hparenMem (by decide)
  have hneg : (c0 == '-') = false := beq_eq_false_of_pred hheadW (by decide)
  have hstrip : stripNeg ((c0 :: nt) ++ chs "()") = (c0 :: nt) ++ chs "()" := by
    rw [List.cons_append]
    exact stripNeg_of_head_ne hneg
  have hint : isIntLit ((c0 :: nt) ++ chs "()") = false := by
    have hall : ((c0 :: nt) ++ chs "()").all Char.isDigit = false :=
      all_eq_false_of_mem hparenMem (by decide)
    simp only [isIntLit, hstrip, hall, Bool.and_false]
  have hfloat : isFloatLit ((c0 :: nt) ++ chs "()") = false := by
    apply isFloatLit_false_of_no_dot
    rw [hstrip]
    intro hmem
    rcases List.mem_append.mp hmem with h1 | h2
    · exact absurd (hword '.' h1) (by decide)
    · rw [pl] at h2
      simp at h2
  have hcontains : containsChar ((c0 :: nt) ++ chs "()") '(' = true :=
    contains_eq_true_of_mem hparenMem
  have hends : endsWithChar ((c0 :: nt) ++ chs "()") ')' = true := by
    unfold endsWithChar
    rw [pl, List.reverse_append]
    rfl
  have hcall : matchCallExpr ((c0 :: nt) ++ chs "()") = some (c0 :: nt, []) := by
    simp only [matchCallExpr, pl]
    rw [takeWhile_append_run hwd (by decide), List.drop_left]
    rfl
  have hdotN : containsChar (c0 :: nt) '.' = false :=
    contains_eq_false (fun x hx => beq_eq_false_of_pred (hword x hx) (by decide))
  have hA1 : eval_expression host (n + 2) st ((c0 :: nt) ++ chs "()") env =
      .error (.functionNotFound (c0 :: nt)) := by
    rw [eval_expression_to_call host (n + 1) st env _ htrim hstr hTrue hFalse
      hNull hint hfloat henvC hglobC hcontains hends,
      eval_function_call_bare_no_args host n st env _ _ hcall hdotN]
    cases hg : assocGet st.globals (c0 :: nt) with
    | none => simp [hclass]
    | some v => simp [hglobN v hg, hclass]
  refine ⟨hA1, ?_, ?_⟩
  · -- execute_statement propagates the same failure
    have hempty : ((c0 :: nt) ++ chs "()").isEmpty = false := by
      rw [List.cons_append]
      rfl
    have hslash : startsWithChars (chs "//") ((c0 :: nt) ++ chs "()") = false := by
      rw [List.cons_append]
      have : ('/' == c0) = false := beq_eq_false_of_pred_rev (by decide) hheadW
      simp [startsWithChars, this]
    have hspace : ' ' ∉ (c0 :: nt) ++ chs "()" := fun hm =>
      absurd (hmemA ' ' hm) (by decide)
    have hlet : startsWithChars (chs "let ") ((c0 :: nt) ++ chs "()") = false :=
      startsWith_eq_false_of_not_mem (by decide) hspace
    have hret : startsWithChars (chs "return ") ((c0 :: nt) ++ chs "()") = false :=
      startsWith_eq_false_of_not_mem (by decide) hspace
    have hif : startsWithChars (chs "if ") ((c0 :: nt) ++ chs "()") = false :=
      startsWith_eq_false_of_not_mem (by decide) hspace
    have hassign : matchAssign ((c0 :: nt) ++ chs "()") = none := by
      simp only [matchAssign, pl]
      rw [takeWhile_append_run hwd (by decide), List.drop_left]
      rfl
    simp only [execute_statement, htrim, hempty, hslash, hlet, hret, hif,
      hassign, hA1]
    rfl
  · -- the dotted property access
    have hTmem : ∀ x ∈ ('o' :: 'b' :: 'j' :: '.' :: prop), isPySpace x = false := by
      intro x hx
      simp only [List.mem_cons] at hx
      rcases hx with rfl | rfl | rfl | rfl | hx'
      · decide
      · decide
      · decide
      · decide
      · exact not_space_of_wordChar (hpword x hx')
    have htrimB : trimL ('o' :: 'b' :: 'j' :: '.' :: prop) =
        'o' :: 'b' :: 'j' :: '.' :: prop := trimL_eq_self hTmem
    have hparenB : containsChar ('o' :: 'b' :: 'j' :: '.' :: prop) '(' = false := by
      apply contains_eq_false
      intro x hx
      simp only [List.mem_cons] at hx
      rcases hx with rfl | rfl | rfl | rfl | hx'
      · decide
      · decide
      · decide
      · decide
      · exact beq_eq_false_of_pred (hpword x hx') (by decide)
    have hdotB : containsChar ('o' :: 'b' :: 'j' :: '.' :: prop) '.' = true :=
      contains_eq_true_of_mem (by simp)
    have hsplitB : splitOnChar '.' ('o' :: 'b' :: 'j' :: '.' :: prop) =
        [chs "obj", prop] := by
      have h1 : splitOnChar '.' prop = [prop] :=
        splitOnChar_no_sep
          (fun x hx => beq_eq_false_of_pred (hpword x hx) (by decide))
      simp [splitOnChar, h1]
      rfl
    have hbaseEval : eval_expression host (n + 1) st (chs "obj") env =
        .ok (.VObj r, st) := by
      have e : eval_expression host (n + 1) st (chs "obj") env =
          (match assocGet env (chs "obj") with
           | some v => .ok (v, st)
           | none =>
             match assocGet st.globals (chs "obj") with
             | some v => .ok (v, st)
             | none =>
               match host.evalFallback (chs "obj") st.globals env with
               | some v => .ok (v, st)
               | none => .error (.couldNotEvaluate (chs "obj"))) := rfl
      rw [e, hbase]
    have hattr : hasattrV st (.VObj r) prop = false := by
      simp [hasattrV, hheap, hfield, hpy]
    have hwalk : walkProps st (.VObj r) [prop] = .error (.propertyNotFound prop) := by
      simp [walkProps, hattr]
    have henvP' : assocGet env ('o' :: 'b' :: 'j' :: '.' :: prop) = none := henvP
    have hglobP' : assocGet st.globals ('o' :: 'b' :: 'j' :: '.' :: prop) = none :=
      hglobP
    show eval_expression host (n + 2) st ('o' :: 'b' :: 'j' :: '.' :: prop) env =
      .error (.propertyNotFound prop)
    exact eval_expression_property_error host (n + 1) st env _ (chs "obj") [prop]
      (.VObj r) st (.propertyNotFound prop) htrimB rfl rfl rfl rfl rfl rfl
      henvP' hglobP' hparenB hdotB hsplitB hbaseEval hwalk

/-- Claim C8 witness: the failing call `foo()` and the failing access
`obj.nope` evaluated in the seeded state extended with one bare instance
bound to `obj`. -/
theorem c8_unresolved_call_and_property_fail_witness :
    eval_expression strictHost 2 bareObjState (chs "foo" ++ chs "()")
        [(chs "obj", .VObj 0)] = .error (.functionNotFound (chs "foo")) ∧
    execute_statement strictHost 3 bareObjState (chs "foo" ++ chs "()")
        [(chs "obj", .VObj 0)] = .error (.functionNotFound (chs "foo")) ∧
    eval_expression strictHost 2 bareObjState (chs "obj" ++ '.' :: chs "nope")
        [(chs "obj", .VObj 0)] = .error (.propertyNotFound (chs "nope")) := by
  refine c8_unresolved_call_and_property_fail strictHost 0 bareObjState
    [(chs "obj", .VObj 0)] (chs "foo") (chs "nope") 0 ⟨⟨chs "T", [], []⟩, []⟩
    (by decide) (by decide) rfl rfl ?_ rfl (by decide) rfl rfl rfl rfl rfl rfl
  intro v hv
  have : assocGet bareObjState.globals (chs "foo") = (none : Option Value) := rfl
  rw [this] at hv
  exact Option.noConfusion hv

/-- Claim C10: a method call that supplies fewer arguments than the method
declares parameters raises no arity error — the call proceeds straight to
executing the body in the fresh scope (`self` plus all parameters), and
every parameter beyond the supplied arguments is bound to `None`. -/
theorem c10_missing_arguments_bound_to_null (host : Host) (n : Nat) (st : St)
    (ref : Nat) (o : ObjData) (m : Chars) (params body : List Chars)
    (args : List Value)
    (hheap : assocGet st.heap ref = some o)
    (hm : assocGet o.klass.methods m = some ⟨params, body⟩)
    (_hlen : args.length < params.length)
    (hnd : params.Nodup) :
    call_method host (n + 1) st true ref m args =
      execute_block host n st body (bindLoop [(chs "self", .VObj ref)] params args) ∧
    ∀ p ∈ params.drop args.length,
      assocGet (bindLoop [(chs "self", .VObj ref)] params args) p = some .VNull := by
  constructor
  · simp [call_method, hheap, hm]
  · intro p hp
    exact assocGet_bindLoop_missing _ _ _ _ hnd hp

/-- Claim C10 witness: calling `get(a, b)` with the single argument `1`
runs the body with `b` bound to `None` and no arity failure. -/
theorem c10_missing_arguments_bound_to_null_witness :
    (call_method strictHost 3 twoParamState true 0 (chs "get") [.VInt 1] =
      execute_block strictHost 2 twoParamState [chs "return b"]
        (bindLoop [(chs "self", .VObj 0)] [chs "a", chs "b"] [.VInt 1]) ∧
    ∀ p ∈ [chs "a", chs "b"].drop 1,
      assocGet (bindLoop [(chs "self", .VObj 0)] [chs "a", chs "b"] [.VInt 1]) p =
        some .VNull) :=
  c10_missing_arguments_bound_to_null strictHost 2 twoParamState 0
    ⟨twoParamClass, []⟩ (chs "get") [chs "a", chs "b"] [chs "return b"] [.VInt 1]
    rfl rfl (by decide) (by decide)

end KSPL


